import Mathlib

/-!
Verification development for the parkrun results-analysis library
(`parkrun.py`).

Modelling conventions:
* Python strings are modelled as lists of characters (`Str`).
* Python numbers (ints and floats) are modelled as `ℤ`, `ℕ` and `ℚ`;
  the numeric literals appearing in the data are plain decimals, so
  exact rational arithmetic models the observable values.
* Functions that can raise an exception return `Option`; `none` models
  an uncaught exception.
* Randomised primitives receive the stream of random draws (or the
  permutation chosen by the generator) as an explicit argument.
-/

abbrev Str := List Char

/-- Model of Python's `s.split(c)` for a one-character separator:
cuts the string at every occurrence of `c`, keeping empty pieces. -/
def splitOnChar (c : Char) : Str → List Str
  | [] => [[]]
  | a :: rest =>
    match splitOnChar c rest with
    | [] => [[a]]
    | g :: gs => if a = c then [] :: g :: gs else (a :: g) :: gs

/-- Numeric value of a digit string, most significant digit first
(the accumulator fold performed by Python's `int`). -/
def digitsVal (s : Str) : ℕ :=
  s.foldl (fun a c => 10 * a + (c.toNat - 48)) 0

/-- Model of Python's `int(s)` on an unsigned decimal string: defined
exactly on nonempty all-digit strings. -/
def parseNatChars (s : Str) : Option ℕ :=
  if s.isEmpty then none
  else if s.all Char.isDigit then some (digitsVal s) else none

/-- Model of Python's `int(s)`: an optional leading minus sign followed
by a nonempty digit string. -/
def parseIntChars (s : Str) : Option ℤ :=
  if s.head? = some ('-' : Char) then
    (parseNatChars s.tail).map (fun n => -(n : ℤ))
  else
    (parseNatChars s).map (fun n => (n : ℤ))

/-- Unsigned part of Python's `float(s)` on the plain decimal literals
occurring in the data files: `digits`, `digits.digits`, `.digits` or
`digits.`. -/
def parseUFrac (s : Str) : Option ℚ :=
  match splitOnChar '.' s with
  | [a] => (parseNatChars a).map (fun n => (n : ℚ))
  | [a, b] =>
    if a.isEmpty && b.isEmpty then none
    else if a.all Char.isDigit && b.all Char.isDigit then
      some ((digitsVal a : ℚ) + (digitsVal b : ℚ) / (10 ^ b.length))
    else none
  | _ => none

/-- Model of Python's `float(s)` on plain decimal literals, with an
optional leading minus sign. -/
def parseFloatChars (s : Str) : Option ℚ :=
  if s.head? = some ('-' : Char) then (parseUFrac s.tail).map (fun q => -q)
  else parseUFrac s

/-- Model of Python's `s.strip(c)` for a one-character argument: removes
every leading and every trailing occurrence of `c`. -/
def pyStrip (c : Char) (s : Str) : Str :=
  ((s.dropWhile (fun a => a == c)).reverse.dropWhile (fun a => a == c)).reverse

/-- `convertPercent` from `parkrun.py`:
`lambda x: float(x.strip("%"))/100.`. -/
def convertPercent (s : Str) : Option ℚ :=
  (parseFloatChars (pyStrip '%' s)).map (fun q => q / 100)

/-- `timeString_to_minutes` from `parkrun.py`: split on `:`, convert
every component with `int` (a failure there propagates), then try the
three-component decomposition `60*h + m + s/60`; on an arity failure
fall back to the two-component decomposition `m + s/60`; a
single-component string fails in both branches. -/
def parseAllInts : List Str → Option (List ℤ)
  | [] => some []
  | s :: rest =>
    match parseIntChars s, parseAllInts rest with
    | some n, some ns => some (n :: ns)
    | _, _ => none

def timeString_to_minutes (x : Str) : Option ℚ :=
  match parseAllInts (splitOnChar ':' x) with
  | none => none
  | some xlist =>
    match xlist with
    | a :: b :: c :: _ => some (60 * (a : ℚ) + (b : ℚ) + (c : ℚ) / 60)
    | [a, b] => some ((a : ℚ) + (b : ℚ) / 60)
    | _ => none

/-- Python 2's `int(x)` on a float: truncation toward zero. -/
def pyInt (q : ℚ) : ℤ := if 0 ≤ q then ⌊q⌋ else ⌈q⌉

/-- Python 2's `round(x)`: round half away from zero. -/
def pyRound (q : ℚ) : ℤ := if 0 ≤ q then ⌊q + 1 / 2⌋ else ⌈q - 1 / 2⌉

/-- Decimal rendering of a natural number, as Python's `str`. -/
def natToChars (n : ℕ) : Str :=
  if n = 0 then [('0' : Char)]
  else ((Nat.digits 10 n).map Nat.digitChar).reverse

/-- Decimal rendering of an integer, as Python's `str`. -/
def intToChars (n : ℤ) : Str :=
  if n < 0 then ('-' : Char) :: natToChars n.natAbs else natToChars n.toNat

/-- Zero padding to width 2, as in the format spec `{:02.0f}`. -/
def padTo2 (s : Str) : Str :=
  if s.length < 2 then ('0' : Char) :: s else s

/-- `minutes_to_timeString` from `parkrun.py`:
`'{}:{:02.0f}'.format(int(x), round((x-int(x))*60))`. -/
def minutes_to_timeString (x : ℚ) : Str :=
  intToChars (pyInt x) ++ (':' : Char) :: padTo2 (intToChars (pyRound ((x - pyInt x) * 60)))

/-- Value of the `Gender Pos` / `Total Runs` columns: the raw text read
from the file, or an integer after the importer's `astype('int')`. -/
inductive ColVal where
  | raw (s : Str)
  | intv (n : ℤ)
deriving DecidableEq

/-- One row of the results table.  `agCat` and `weights` model the
transient `AG_Cat` and `weights` columns added by the weighted
resampler; they are absent (`none`) on freshly imported rows. -/
structure Row where
  position : ℤ
  runner : Str
  time : ℚ
  ageCat : Str
  ageGrade : ℚ
  gender : Str
  genderPos : ColVal
  totalRuns : ColVal
  agCat : Option ℤ := none
  weights : Option ℚ := none
deriving DecidableEq

instance : Inhabited Row :=
  ⟨⟨0, [], 0, [], 0, [], ColVal.raw [], ColVal.raw [], none, none⟩⟩

/-- A row with the transient resampling columns removed. -/
def stripTransient (r : Row) : Row :=
  { r with agCat := none, weights := none }

def unknownStr : Str := ("Unknown").toList

def mStr : Str := ("M").toList

def isUnknown (r : Row) : Bool := r.runner == unknownStr

/-- Parse one tab-separated data line into a row: 11 fixed fields, with
`timeString_to_minutes` applied to the Time field, `convertPercent` to
the Age Grade field, the Position index parsed as an integer, and the
Club, Note and Badges fields dropped. -/
def parseLine (line : Str) : Option Row :=
  let fs := splitOnChar '\t' line
  if fs.length = 11 then
    match parseIntChars (fs.getD 0 []), timeString_to_minutes (fs.getD 2 []),
        convertPercent (fs.getD 4 []) with
    | some p, some t, some ag =>
      some { position := p, runner := fs.getD 1 [], time := t, ageCat := fs.getD 3 [],
             ageGrade := ag, gender := fs.getD 5 [],
             genderPos := ColVal.raw (fs.getD 6 []), totalRuns := ColVal.raw (fs.getD 9 []) }
    | _, _, _ => none
  else none

def parseLines : List Str → Option (List Row)
  | [] => some []
  | l :: rest =>
    match parseLine l, parseLines rest with
    | some r, some rs => some (r :: rs)
    | _, _ => none

/-- The importer's `astype('int')` on the `Gender Pos` / `Total Runs`
columns: parse the raw text as an integer, raising on failure. -/
def astypeInt (v : ColVal) : Option ColVal :=
  match v with
  | ColVal.raw s => (parseIntChars s).map ColVal.intv
  | ColVal.intv n => some (ColVal.intv n)

def coerceInts : List Row → Option (List Row)
  | [] => some []
  | r :: rest =>
    match astypeInt r.genderPos, astypeInt r.totalRuns, coerceInts rest with
    | some gp, some tr, some rs =>
      some ({ r with genderPos := gp, totalRuns := tr } :: rs)
    | _, _, _ => none

/-- Result of `importResults`: the table together with the summary
counts computed before any filtering. -/
structure ImportResult where
  rows : List Row
  totalRunners : ℕ
  totalUnknowns : ℕ
  maleRunners : ℕ
deriving DecidableEq

/-- The data region selected by `pd.read_csv(..., skiprows=13, skipfooter=36)`:
the lines left after discarding the first 13 and the last 36. -/
def dataRegion (lines : List Str) : List Str :=
  (lines.drop 13).take ((lines.drop 13).length - 36)

/-- `importResults` from `parkrun.py`.  Note that the source passes the
literals `13` and `36` to the reader instead of its `skiprows` and
`skipfooter` parameters, so the two parameters are dead. -/
def importResults (lines : List Str) (skiprows : ℕ) (skipfooter : ℕ)
    (removeUnknowns : Bool) : Option ImportResult :=
  match parseLines (dataRegion lines) with
  | none => none
  | some rows =>
    if removeUnknowns then
      match coerceInts (rows.filter (fun r => !(isUnknown r))) with
      | none => none
      | some rows2 =>
        some ⟨rows2, rows.length, rows.countP isUnknown,
          rows.countP (fun r => r.gender == mStr)⟩
    else
      some ⟨rows, rows.length, rows.countP isUnknown,
        rows.countP (fun r => r.gender == mStr)⟩

/-- `validEntries` as computed by `print_stats`. -/
def validEntries (results : List Row) : ℤ :=
  (results.length : ℤ) - results.countP isUnknown

/-- Numeric core of `print_stats`: the runner count and the
male-percentage value `100*float(maleRunners)/validEntries` printed on
the stats line.  The `ZeroDivisionError` raised by Python when
`validEntries == 0` is modelled as `none`. -/
def print_stats (results : List Row) : Option (ℕ × ℚ) :=
  let totalRunners := results.length
  let maleRunners := results.countP (fun r => r.gender == mStr)
  if validEntries results = 0 then none
  else some (totalRunners, 100 * (maleRunners : ℚ) / (validEntries results : ℚ))

/-- The 14 select age categories (`selectCats` in `parkrun.py`). -/
def selectCats : List Str :=
  [("SM25-29").toList, ("SM30-34").toList,
   ("SW25-29").toList, ("SW30-34").toList,
   ("VM35-39").toList, ("VM40-44").toList, ("VM45-49").toList,
   ("VM50-54").toList, ("VM55-59").toList,
   ("VW35-39").toList, ("VW40-44").toList, ("VW45-49").toList,
   ("VW50-54").toList, ("VW55-59").toList]

/-- Model of `DataFrame.sample(n, replace=False)`: `pick` is the random
permutation produced by the generator; the draw keeps its first `n`
elements and raises (`none`) when `n` exceeds the population size. -/
def sampleRows (pick : List Row → List Row) (xs : List Row) (n : ℕ) : Option (List Row) :=
  if n ≤ xs.length then some ((pick xs).take n) else none

/-- `resample_AgeCat` from `parkrun.py`: for each select category draw
`nsamples` rows without replacement from the matching subset, appending
the draws in the fixed category order; a failed draw (category too
small) is swallowed by the bare `except` and contributes nothing. -/
def resample_AgeCat (pick : List Row → List Row) (results : List Row)
    (nsamples : ℕ) : List Row :=
  (selectCats.map (fun cat =>
    (sampleRows pick (results.filter (fun r => r.ageCat == cat)) nsamples).getD [])).flatten

/-- State-passing form of `resample_AgeCat`: the post-call state of the
input table paired with the returned table.  The source never assigns
to `results`, so the input state is returned unchanged. -/
def resample_AgeCat_state (pick : List Row → List Row) (results : List Row)
    (nsamples : ℕ) : List Row × List Row :=
  (results, resample_AgeCat pick results nsamples)

/-- `pd.cut(ag*100, bins=range(0,100+100/nCats,100/nCats), labels=range(0,nCats))`
for one value: bins are left-open right-closed intervals of width
`100/nCats` (integer division, as in Python 2); values outside the
covered range get `NaN`, modelled as `none`. -/
def cut (nCats : ℕ) (ag : ℚ) : Option ℤ :=
  let w : ℕ := 100 / nCats
  let v : ℚ := ag * 100
  if 0 < v ∧ v ≤ ((nCats * w : ℕ) : ℚ) then some (⌈v / (w : ℚ)⌉ - 1) else none

/-- `pd.cut` demands as many labels as bins; with Python 2's integer
division the call goes through exactly when `99/(100/nCats) + 1 = nCats`
(and raises for `nCats = 0` or `nCats > 100`, where the step is ill
formed). -/
def binsOk (nCats : ℕ) : Bool :=
  decide (0 < nCats ∧ 0 < 100 / nCats ∧ 99 / (100 / nCats) + 1 = nCats)

/-- Count of reference rows whose age grade falls in bucket `b`; this is
`results1['AG_Cat'].value_counts()` looked up at `b`. -/
def bucketCount (nCats : ℕ) (ref : List Row) (b : ℤ) : ℕ :=
  ref.countP (fun r => cut nCats r.ageGrade == some b)

/-- Assignment of the `AG_Cat` and `weights` columns to a table:
`df['AG_Cat'] = pd.cut(...)` followed by
`df['weights'] = [counts[x] for x in df['AG_Cat']]`.  A `NaN` bucket
makes the lookup `counts[x]` raise `KeyError`, modelled as `none`. -/
def assignBW (nCats : ℕ) (counts : ℤ → ℕ) : List Row → Option (List Row)
  | [] => some []
  | r :: rest =>
    match cut nCats r.ageGrade, assignBW nCats counts rest with
    | some b, some rs =>
      some ({ r with agCat := some b, weights := some ((counts b : ℚ)) } :: rs)
    | _, _ => none

/-- Inclusive prefix sums of a weight list (the cumulative distribution
built by `numpy.random.choice`). -/
def cumSums : List ℚ → List ℚ
  | [] => []
  | w :: ws => w :: (cumSums ws).map (fun p => w + p)

/-- One inverse-CDF draw: `searchsorted(cdf, u, side='right')` after the
CDF is normalised by the total weight, i.e. the number of prefix sums
not exceeding `u * total`. -/
def drawOne (ws : List ℚ) (u : ℚ) : ℕ :=
  (cumSums ws).countP (fun p => decide (p ≤ u * ws.sum))

/-- Reference recursion for `drawOne`: index of the first prefix sum
exceeding the threshold. -/
def searchIdx : ℚ → List ℚ → ℕ
  | _, [] => 0
  | t, w :: ws => if w ≤ t then searchIdx (t - w) ws + 1 else 0

/-- Weighted sampling without replacement as `numpy.random.choice`
performs it: repeatedly draw by inverse CDF, zeroing out the weight of
each index already taken.  `us` is the stream of uniform draws. -/
def sampleWR (ws : List ℚ) : List ℚ → List ℕ
  | [] => []
  | u :: us =>
    let j := drawOne ws u
    j :: sampleWR (ws.set j 0) us

/-- `resample` from `parkrun.py` (the weighted resampler).  Returns the
post-call states of both input tables (they receive the `AG_Cat` and
`weights` columns) together with the sampled table.  `none` models the
exceptions raised by `pd.cut` on a label/bin mismatch, by the `KeyError`
on a `NaN` bucket, and by `numpy` when fewer weights are nonzero than
samples are requested. -/
def resample (results1 results2 : List Row) (nsamples nCats : ℕ)
    (us : List ℚ) : Option (List Row × List Row × List Row) :=
  if binsOk nCats then
    match assignBW nCats (bucketCount nCats results1) results1 with
    | none => none
    | some r1s =>
      match assignBW nCats (bucketCount nCats results1) results2 with
      | none => none
      | some r2s =>
        if nsamples ≤ (r2s.map (fun r => r.weights.getD 0)).countP
            (fun w => decide (0 < w)) then
          some (r1s, r2s,
            (sampleWR (r2s.map (fun r => r.weights.getD 0)) us).filterMap
              (fun j => r2s.get? j))
        else none
  else none

/-! Concrete test data. -/

def junkLine : Str := ("x").toList

def johnLine : Str :=
  ("1\tJohn\t25:30\tSM30-34\t75%\tM\t1\tc\tn\t10\tb").toList

/-- A 50-line input file: 13 banner lines, one data line, 36 footer
lines. -/
def testLines : List Str :=
  List.replicate 13 junkLine ++ johnLine :: List.replicate 36 junkLine

def johnRow : Row :=
  { position := 1, runner := ("John").toList, time := 51 / 2,
    ageCat := ("SM30-34").toList, ageGrade := 3 / 4, gender := ("M").toList,
    genderPos := ColVal.raw (("1").toList), totalRuns := ColVal.raw (("10").toList) }

def testRes : ImportResult :=
  ⟨[{ johnRow with genderPos := ColVal.intv 1, totalRuns := ColVal.intv 10 }], 1, 0, 1⟩

def mkRow (p : ℤ) (ag : ℚ) (cat : Str) : Row :=
  { position := p, runner := ("R").toList, time := 25, ageCat := cat,
    ageGrade := ag, gender := ("M").toList,
    genderPos := ColVal.intv 1, totalRuns := ColVal.intv 1 }

def refT : List Row :=
  [mkRow 1 (11 / 20) (("SM30-34").toList), mkRow 2 (11 / 20) (("SM30-34").toList)]

def tgtT : List Row :=
  [mkRow 3 (13 / 25) (("SM30-34").toList), mkRow 4 (29 / 50) (("SM30-34").toList)]

def oneCatTable : List Row := [mkRow 5 (3 / 4) (("SM30-34").toList)]

/-- Expected post-call state of the reference table in the concrete
weighted-resampling run: both rows fall in bucket 5 and get weight 2. -/
def refTA : List Row :=
  [{ mkRow 1 (11 / 20) (("SM30-34").toList) with agCat := some 5, weights := some 2 },
   { mkRow 2 (11 / 20) (("SM30-34").toList) with agCat := some 5, weights := some 2 }]

/-- Expected post-call state of the target table in the concrete
weighted-resampling run. -/
def tgtTA : List Row :=
  [{ mkRow 3 (13 / 25) (("SM30-34").toList) with agCat := some 5, weights := some 2 },
   { mkRow 4 (29 / 50) (("SM30-34").toList) with agCat := some 5, weights := some 2 }]

/-- Expected sample of the concrete weighted-resampling run with random
stream `[0]`. -/
def outT : List Row :=
  [{ mkRow 3 (13 / 25) (("SM30-34").toList) with agCat := some 5, weights := some 2 }]

/-! Basic facts about the string model. -/

theorem splitOnChar_ne_nil (c : Char) (s : Str) : splitOnChar c s ≠ [] := by
  cases s with
  | nil => simp [splitOnChar]
  | cons a rest =>
    simp only [splitOnChar]
    cases splitOnChar c rest with
    | nil => simp
    | cons g gs => by_cases hac : a = c <;> simp [hac]

theorem splitOnChar_not_mem (c : Char) (s : Str) (h : c ∉ s) : splitOnChar c s = [s] := by
  induction s with
  | nil => rfl
  | cons a rest ih =>
    have hac : ¬ (a = c) := by intro e; exact h (by simp [e])
    have hr : splitOnChar c rest = [rest] := ih (fun hm => h (List.mem_cons_of_mem _ hm))
    simp [splitOnChar, hr, hac]

theorem splitOnChar_append (c : Char) (a b : Str) (h : c ∉ a) :
    splitOnChar c (a ++ c :: b) = a :: splitOnChar c b := by
  induction a with
  | nil =>
    simp only [List.nil_append, splitOnChar]
    cases hb : splitOnChar c b with
    | nil => exact absurd hb (splitOnChar_ne_nil c b)
    | cons g gs => simp
  | cons d a2 ih =>
    have hdc : ¬ (d = c) := fun e => h (by simp [e])
    have ha2 : c ∉ a2 := fun hm => h (List.mem_cons_of_mem _ hm)
    simp only [List.cons_append, splitOnChar, List.append_eq]
    rw [ih ha2]
    simp [hdc]

theorem digitChar_toNat (d : ℕ) (hd : d < 10) : (Nat.digitChar d).toNat - 48 = d := by
  interval_cases d <;> decide

theorem digitChar_isDigit (d : ℕ) (hd : d < 10) : (Nat.digitChar d).isDigit = true := by
  interval_cases d <;> decide

theorem natToChars_ne_nil (n : ℕ) : natToChars n ≠ [] := by
  by_cases h : n = 0
  · simp [natToChars, h]
  · simp [natToChars, h, Nat.digits_ne_nil_iff_ne_zero]

theorem natToChars_digits (n : ℕ) : ∀ ch ∈ natToChars n, ch.isDigit = true := by
  by_cases h : n = 0
  · intro ch hch
    rw [natToChars, if_pos h] at hch
    simp at hch
    subst hch
    decide
  · intro ch hch
    simp only [natToChars, if_neg h, List.mem_reverse, List.mem_map] at hch
    obtain ⟨d, hd, rfl⟩ := hch
    exact digitChar_isDigit d (Nat.digits_lt_base (by norm_num) hd)

theorem isDigit_ne (c : Char) (hc : c.isDigit = true) (d : Char) (hd : d.isDigit = false) :
    ¬ (c = d) := by
  intro e
  subst e
  rw [hc] at hd
  exact Bool.noConfusion hd

theorem colon_not_mem_natToChars (n : ℕ) : (':' : Char) ∉ natToChars n := by
  intro hm
  exact isDigit_ne _ (natToChars_digits n _ hm) (':' : Char) (by decide) rfl

theorem digitsVal_aux (ds : List ℕ) (hds : ∀ d ∈ ds, d < 10) (acc : ℕ) :
    List.foldl (fun a c => 10 * a + (c.toNat - 48)) acc ((ds.map Nat.digitChar).reverse)
      = acc * 10 ^ ds.length + Nat.ofDigits 10 ds := by
  induction ds generalizing acc with
  | nil => simp
  | cons d rest ih =>
    have hd : d < 10 := hds d (by simp)
    have hrest : ∀ e ∈ rest, e < 10 := fun e he => hds e (by simp [he])
    simp only [List.map_cons, List.reverse_cons, List.foldl_append, ih hrest acc,
      List.foldl_cons, List.foldl_nil]
    rw [digitChar_toNat d hd, Nat.ofDigits_cons]
    simp only [List.length_cons, pow_succ]
    ring

theorem digitsVal_natToChars (n : ℕ) : digitsVal (natToChars n) = n := by
  by_cases h : n = 0
  · subst h; decide
  · rw [natToChars, if_neg h]
    unfold digitsVal
    rw [digitsVal_aux (Nat.digits 10 n) (fun d hd => Nat.digits_lt_base (by norm_num) hd) 0]
    simp [Nat.ofDigits_digits]

theorem natToChars_all_isDigit (n : ℕ) : (natToChars n).all Char.isDigit = true :=
  List.all_eq_true.mpr (fun c hc => natToChars_digits n c hc)

theorem natToChars_isEmpty_false (n : ℕ) : (natToChars n).isEmpty = false := by
  cases hn : natToChars n with
  | nil => exact absurd hn (natToChars_ne_nil n)
  | cons a l => rfl

theorem parseNatChars_natToChars (n : ℕ) : parseNatChars (natToChars n) = some n := by
  rw [parseNatChars, natToChars_isEmpty_false n]
  simp [natToChars_all_isDigit n, digitsVal_natToChars n]

theorem natToChars_head_not_minus (n : ℕ) :
    ¬ ((natToChars n).head? = some ('-' : Char)) := by
  cases hn : natToChars n with
  | nil => simp
  | cons a l =>
    have ha : a.isDigit = true := natToChars_digits n a (by rw [hn]; simp)
    simp only [List.head?_cons, Option.some.injEq]
    exact isDigit_ne a ha ('-' : Char) (by decide)

theorem parseIntChars_natToChars (n : ℕ) : parseIntChars (natToChars n) = some (n : ℤ) := by
  rw [parseIntChars, if_neg (natToChars_head_not_minus n), parseNatChars_natToChars n]
  rfl

theorem dropWhile_beq_not_mem (c : Char) (l : Str) (h : c ∉ l) :
    l.dropWhile (fun a => a == c) = l := by
  cases l with
  | nil => rfl
  | cons a t =>
    have hac : (a == c) = false := by
      refine beq_eq_false_iff_ne.mpr ?_
      intro e
      exact h (by simp [e])
    simp [List.dropWhile_cons, hac]

theorem pyStrip_of_not_mem (c : Char) (s : Str) (h : c ∉ s) : pyStrip c s = s := by
  unfold pyStrip
  rw [dropWhile_beq_not_mem c s h, dropWhile_beq_not_mem c s.reverse (by simpa using h),
    List.reverse_reverse]

theorem pyStrip_append_of_not_mem (c : Char) (s : Str) (h : c ∉ s) :
    pyStrip c (s ++ [c]) = s := by
  unfold pyStrip
  cases s with
  | nil => simp [List.dropWhile]
  | cons a t =>
    have hac : (a == c) = false := by
      refine beq_eq_false_iff_ne.mpr ?_
      intro e
      exact h (by simp [e])
    have hrev : c ∉ (a :: t).reverse := by
      simp only [List.mem_reverse]
      exact h
    rw [List.cons_append, List.dropWhile_cons, if_neg (by simp [hac])]
    have : ((a :: t) ++ [c]).reverse = c :: (a :: t).reverse := by
      rw [List.reverse_append]
      rfl
    rw [← List.cons_append, this, List.dropWhile_cons, if_pos (by simp),
      dropWhile_beq_not_mem c _ hrev, List.reverse_reverse]

/-- Claim C3 counterexample: `convertPercent` does not fail on a numeric
string with no trailing percent sign: `"75"` is accepted and yields
`0.75`, because `strip("%")` simply removes nothing. -/
theorem convertPercent_no_suffix : convertPercent (("75").toList) = some (3 / 4) := by
  simp +decide [convertPercent, parseFloatChars, parseUFrac, pyStrip, splitOnChar,
    parseNatChars, digitsVal]
  norm_num

/-- Claim C3 (amended): `convertPercent` strips every leading and
trailing `%` and parses the remainder as a number divided by 100; a
numeric body with a trailing `%` yields the number over 100, a numeric
body with no `%` suffix also succeeds with the same value, and the call
fails exactly when the stripped body is not numeric. -/
theorem convertPercent_spec (s : Str) (q : ℚ)
    (hnum : parseFloatChars s = some q) (hnp : ('%' : Char) ∉ s) :
    convertPercent (s ++ [('%' : Char)]) = some (q / 100) ∧
    convertPercent s = some (q / 100) ∧
    (∀ t : Str, parseFloatChars (pyStrip '%' t) = none → convertPercent t = none) := by
  refine ⟨?_, ?_, ?_⟩
  · rw [convertPercent, pyStrip_append_of_not_mem _ _ hnp, hnum]
    rfl
  · rw [convertPercent, pyStrip_of_not_mem _ _ hnp, hnum]
    rfl
  · intro t ht
    rw [convertPercent, ht]
    rfl

theorem convertPercent_spec_witness :
    parseFloatChars (("75").toList) = some 75 ∧ ('%' : Char) ∉ (("75").toList) ∧
    convertPercent (("75%").toList) = some (75 / 100) := by
  have h1 : parseFloatChars (("75").toList) = some 75 := by
    simp +decide [parseFloatChars, parseUFrac, splitOnChar, parseNatChars, digitsVal]
  have h2 : ('%' : Char) ∉ (("75").toList) := by decide
  exact ⟨h1, h2, (convertPercent_spec (("75").toList) 75 h1 h2).1⟩

/-- Claim C4: `timeString_to_minutes` returns `60*H + M + S/60` on a
three-component `H:MM:SS` string and falls back to `M + S/60` on a
two-component string (the arity failure of the first decomposition);
in particular `"1:02:30"` gives `62.5` and `"25:30"` gives `25.5`. -/
theorem timeString_to_minutes_spec :
    (∀ H M S : ℕ,
      timeString_to_minutes
          (natToChars H ++ (':' : Char) :: (natToChars M ++ (':' : Char) :: natToChars S))
        = some (60 * (H : ℚ) + (M : ℚ) + (S : ℚ) / 60)) ∧
    (∀ M S : ℕ,
      timeString_to_minutes (natToChars M ++ (':' : Char) :: natToChars S)
        = some ((M : ℚ) + (S : ℚ) / 60)) ∧
    timeString_to_minutes (("1:02:30").toList) = some (125 / 2) ∧
    timeString_to_minutes (("25:30").toList) = some (51 / 2) := by
  refine ⟨?_, ?_, ?_, ?_⟩
  · intro H M S
    rw [timeString_to_minutes, splitOnChar_append _ _ _ (colon_not_mem_natToChars H),
      splitOnChar_append _ _ _ (colon_not_mem_natToChars M),
      splitOnChar_not_mem _ _ (colon_not_mem_natToChars S)]
    simp [parseAllInts, parseIntChars_natToChars]
  · intro M S
    rw [timeString_to_minutes, splitOnChar_append _ _ _ (colon_not_mem_natToChars M),
      splitOnChar_not_mem _ _ (colon_not_mem_natToChars S)]
    simp [parseAllInts, parseIntChars_natToChars]
  · simp +decide [timeString_to_minutes, parseAllInts, splitOnChar, parseIntChars,
      parseNatChars, digitsVal]
    norm_num
  · simp +decide [timeString_to_minutes, parseAllInts, splitOnChar, parseIntChars,
      parseNatChars, digitsVal]
    norm_num

theorem intToChars_natCast (n : ℕ) : intToChars (n : ℤ) = natToChars n := by
  rw [intToChars, if_neg (not_lt.mpr (Int.natCast_nonneg n))]
  simp

theorem digitsVal_cons_zero (s : Str) : digitsVal (('0' : Char) :: s) = digitsVal s := by
  unfold digitsVal
  rw [List.foldl_cons]
  norm_num
  rw [show (('0' : Char).toNat - 48) = 0 from by decide]

theorem parseIntChars_padTo2_natToChars (n : ℕ) :
    parseIntChars (padTo2 (natToChars n)) = some (n : ℤ) := by
  rw [padTo2]
  split
  · rw [parseIntChars, if_neg (by simp)]
    rw [parseNatChars]
    rw [if_neg (by simp)]
    rw [if_pos]
    · rw [digitsVal_cons_zero, digitsVal_natToChars]
      rfl
    · simp only [List.all_cons, Bool.and_eq_true]
      exact ⟨by decide, natToChars_all_isDigit n⟩
  · exact parseIntChars_natToChars n

theorem colon_not_mem_padTo2_natToChars (n : ℕ) :
    (':' : Char) ∉ padTo2 (natToChars n) := by
  rw [padTo2]
  split
  · simp only [List.mem_cons]
    rintro (h | h)
    · exact absurd h (by decide)
    · exact colon_not_mem_natToChars n h
  · exact colon_not_mem_natToChars n

/-- Claim C8: for every nonnegative duration whose seconds component
needs no rounding, parsing the formatted string recovers the value to
within 1/60 minute (in fact exactly). -/
theorem duration_roundtrip (x : ℚ) (hx : 0 ≤ x)
    (hs : ∃ k : ℕ, (x - (⌊x⌋ : ℚ)) * 60 = (k : ℚ)) :
    ∃ y, timeString_to_minutes (minutes_to_timeString x) = some y ∧ |y - x| ≤ 1 / 60 := by
  obtain ⟨k, hk⟩ := hs
  have hfr0 : (0 : ℚ) ≤ x - (⌊x⌋ : ℚ) := sub_nonneg.mpr (Int.floor_le x)
  have hfr1 : x - (⌊x⌋ : ℚ) < 1 := by
    have := Int.lt_floor_add_one x
    linarith
  have hk60 : (k : ℚ) < 60 := by
    rw [← hk]
    nlinarith
  have hfloor0 : (0 : ℤ) ≤ ⌊x⌋ := Int.floor_nonneg.mpr hx
  have hmz : ⌊x⌋ = ((⌊x⌋.toNat : ℕ) : ℤ) := (Int.toNat_of_nonneg hfloor0).symm
  have hpyInt : pyInt x = ⌊x⌋ := by rw [pyInt, if_pos hx]
  have hprk : pyRound ((x - (pyInt x : ℚ)) * 60) = (k : ℤ) := by
    rw [hpyInt, hk, pyRound, if_pos (by positivity)]
    rw [Int.floor_eq_iff]
    constructor
    · push_cast
      linarith
    · push_cast
      linarith
  have hfmt : minutes_to_timeString x
      = natToChars ⌊x⌋.toNat ++ (':' : Char) :: padTo2 (natToChars k) := by
    rw [minutes_to_timeString, hprk, hpyInt]
    rw [show ((k : ℕ) : ℤ) = (k : ℤ) from rfl, intToChars_natCast k]
    rw [hmz, intToChars_natCast, Int.toNat_natCast]
  rw [hfmt, timeString_to_minutes,
    splitOnChar_append _ _ _ (colon_not_mem_natToChars ⌊x⌋.toNat),
    splitOnChar_not_mem _ _ (colon_not_mem_padTo2_natToChars k)]
  simp only [parseAllInts, parseIntChars_natToChars, parseIntChars_padTo2_natToChars]
  refine ⟨((⌊x⌋.toNat : ℕ) : ℚ) + (k : ℚ) / 60, rfl, ?_⟩
  have hcast : ((⌊x⌋.toNat : ℕ) : ℚ) = ((⌊x⌋ : ℤ) : ℚ) := by
    rw [hmz, Int.toNat_natCast]
    push_cast
    ring
  rw [hcast]
  have hxval : x = ((⌊x⌋ : ℤ) : ℚ) + (k : ℚ) / 60 := by linarith
  rw [← hxval]
  simp

theorem duration_roundtrip_witness :
    (0 : ℚ) ≤ 125 / 2 ∧
    (∃ k : ℕ, ((125 / 2 : ℚ) - (⌊(125 / 2 : ℚ)⌋ : ℚ)) * 60 = (k : ℚ)) ∧
    ∃ y, timeString_to_minutes (minutes_to_timeString (125 / 2)) = some y ∧
      |y - 125 / 2| ≤ 1 / 60 := by
  have h1 : (0 : ℚ) ≤ 125 / 2 := by norm_num
  have hfl : ⌊(125 / 2 : ℚ)⌋ = 62 := by
    rw [Int.floor_eq_iff]
    constructor <;> norm_num
  have h2 : ∃ k : ℕ, ((125 / 2 : ℚ) - (⌊(125 / 2 : ℚ)⌋ : ℚ)) * 60 = (k : ℚ) := by
    refine ⟨30, ?_⟩
    rw [hfl]
    norm_num
  exact ⟨h1, h2, duration_roundtrip (125 / 2) h1 h2⟩

theorem natToChars_sixty : natToChars 60 = [('6' : Char), ('0' : Char)] := by
  rw [natToChars, if_neg (by norm_num)]
  rw [Nat.digits_def' (by norm_num : (1 : ℕ) < 10) (by norm_num : (0 : ℕ) < 60)]
  rw [show ((60 : ℕ) / 10) = 6 by norm_num]
  rw [Nat.digits_def' (by norm_num : (1 : ℕ) < 10) (by norm_num : (0 : ℕ) < 6)]
  norm_num
  exact ⟨by decide, by decide⟩

theorem natToChars_twentyfour : natToChars 24 = [('2' : Char), ('4' : Char)] := by
  rw [natToChars, if_neg (by norm_num)]
  rw [Nat.digits_def' (by norm_num : (1 : ℕ) < 10) (by norm_num : (0 : ℕ) < 24)]
  rw [show ((24 : ℕ) / 10) = 2 by norm_num]
  rw [Nat.digits_def' (by norm_num : (1 : ℕ) < 10) (by norm_num : (0 : ℕ) < 2)]
  norm_num
  exact ⟨by decide, by decide⟩

/-- Claim C10: for a nonnegative value whose fractional minute part
rounds to 60 seconds, the seconds field is rendered literally as `60`,
with no carry into the minutes field. -/
theorem minutes_to_timeString_sixty (x : ℚ) (hx : 0 ≤ x)
    (h60 : pyRound ((x - (pyInt x : ℚ)) * 60) = 60) :
    minutes_to_timeString x
      = intToChars (pyInt x) ++ [(':' : Char), ('6' : Char), ('0' : Char)] := by
  have hxuse : 0 ≤ x := hx
  clear hxuse
  rw [minutes_to_timeString, h60]
  rw [show ((60 : ℤ)) = ((60 : ℕ) : ℤ) from rfl, intToChars_natCast, natToChars_sixty]
  rfl

theorem minutes_to_timeString_sixty_witness :
    (0 : ℚ) ≤ 24999 / 1000 ∧
    pyRound (((24999 / 1000 : ℚ) - (pyInt (24999 / 1000 : ℚ) : ℚ)) * 60) = 60 ∧
    minutes_to_timeString (24999 / 1000) = ("24:60").toList := by
  have h1 : (0 : ℚ) ≤ 24999 / 1000 := by norm_num
  have hfl : ⌊(24999 / 1000 : ℚ)⌋ = 24 := by
    rw [Int.floor_eq_iff]
    constructor <;> norm_num
  have hpy : pyInt (24999 / 1000 : ℚ) = 24 := by rw [pyInt, if_pos h1, hfl]
  have h2 : pyRound (((24999 / 1000 : ℚ) - (pyInt (24999 / 1000 : ℚ) : ℚ)) * 60) = 60 := by
    rw [hpy, pyRound, if_pos (by norm_num)]
    rw [show ((24999 / 1000 : ℚ) - ((24 : ℤ) : ℚ)) * 60 + 1 / 2 = 6044 / 100 by norm_num]
    rw [Int.floor_eq_iff]
    constructor <;> norm_num
  refine ⟨h1, h2, ?_⟩
  rw [minutes_to_timeString_sixty _ h1 h2, hpy]
  rw [show ((24 : ℤ)) = ((24 : ℕ) : ℤ) from rfl, intToChars_natCast, natToChars_twentyfour]
  rfl

/-- Claim C9: the male-percentage computation of `print_stats` divides
by `validEntries`; it fails exactly when `validEntries` is zero, and
under the precondition `0 < validEntries` it always succeeds. -/
theorem print_stats_valid_entries (results : List Row) :
    (0 < validEntries results → (print_stats results).isSome = true) ∧
    (validEntries results = 0 → print_stats results = none) := by
  constructor
  · intro h
    simp only [print_stats]
    rw [if_neg (by omega)]
    rfl
  · intro h
    simp only [print_stats]
    rw [if_pos h]

theorem print_stats_valid_entries_witness :
    (0 < validEntries oneCatTable ∧ (print_stats oneCatTable).isSome = true) ∧
    (validEntries [] = 0 ∧ print_stats [] = none) := by
  have h1 : 0 < validEntries oneCatTable := by decide
  have h2 : validEntries [] = 0 := by decide
  exact ⟨⟨h1, (print_stats_valid_entries oneCatTable).1 h1⟩,
    ⟨h2, (print_stats_valid_entries []).2 h2⟩⟩

theorem testLines_data : dataRegion testLines = [johnLine] := by
  have hdrop : testLines.drop 13 = johnLine :: List.replicate 36 junkLine := by
    rw [testLines]
    rw [List.drop_append_of_le_length (by simp)]
    simp
  rw [dataRegion, hdrop]
  simp

theorem tsm_john : timeString_to_minutes (("25:30").toList) = some (51 / 2) := by
  simp +decide [timeString_to_minutes, parseAllInts, splitOnChar, parseIntChars,
    parseNatChars, digitsVal]
  norm_num

theorem cp_john : convertPercent (("75%").toList) = some (3 / 4) := by
  simp +decide [convertPercent, parseFloatChars, parseUFrac, pyStrip, splitOnChar,
    parseNatChars, digitsVal]
  norm_num

theorem parseLine_john : parseLine johnLine = some johnRow := by
  have hsplit : splitOnChar '\t' johnLine
      = [("1").toList, ("John").toList, ("25:30").toList, ("SM30-34").toList,
         ("75%").toList, ("M").toList, ("1").toList, ("c").toList, ("n").toList,
         ("10").toList, ("b").toList] := by decide
  simp only [parseLine]
  rw [hsplit]
  rw [if_pos (by decide)]
  rw [show ([("1").toList, ("John").toList, ("25:30").toList, ("SM30-34").toList,
         ("75%").toList, ("M").toList, ("1").toList, ("c").toList, ("n").toList,
         ("10").toList, ("b").toList].getD 2 []) = ("25:30").toList from rfl]
  rw [show ([("1").toList, ("John").toList, ("25:30").toList, ("SM30-34").toList,
         ("75%").toList, ("M").toList, ("1").toList, ("c").toList, ("n").toList,
         ("10").toList, ("b").toList].getD 4 []) = ("75%").toList from rfl]
  rw [tsm_john, cp_john]
  rw [show parseIntChars ([("1").toList, ("John").toList, ("25:30").toList,
         ("SM30-34").toList, ("75%").toList, ("M").toList, ("1").toList, ("c").toList,
         ("n").toList, ("10").toList, ("b").toList].getD 0 []) = some 1 from by decide]
  rfl

theorem parseLines_john : parseLines [johnLine] = some [johnRow] := by
  unfold parseLines
  rw [parseLine_john]
  rfl

theorem importResults_test : importResults testLines 0 0 true = some testRes := by
  unfold importResults
  rw [testLines_data, parseLines_john]
  rfl

/-- Claim C1 (the code is wrong here): the rows skipped by
`importResults` are governed by the fixed literals 13 and 36, not by the
`skiprows` and `skipfooter` arguments — the result is entirely
independent of those two arguments.  On a 50-line file of valid rows a
call with `skiprows=0, skipfooter=0` still yields a single row. -/
theorem importResults_ignores_skip_params :
    (∀ (lines : List Str) (h1 f1 h2 f2 : ℕ) (ru : Bool),
      importResults lines h1 f1 ru = importResults lines h2 f2 ru) ∧
    testLines.length = 50 ∧
    (importResults testLines 0 0 true).map (fun res => res.rows.length) = some 1 := by
  refine ⟨fun lines h1 f1 h2 f2 ru => rfl, ?_, ?_⟩
  · rw [testLines]
    simp
  · rw [importResults_test]
    rfl

theorem parseLines_mem (ls : List Str) (rs : List Row) (h : parseLines ls = some rs) :
    ∀ l ∈ ls, ∃ r, parseLine l = some r := by
  induction ls generalizing rs with
  | nil =>
    intro l hl
    cases hl
  | cons a rest ih =>
    intro l hl
    unfold parseLines at h
    cases hpl : parseLine a with
    | none =>
      rw [hpl] at h
      cases h
    | some r =>
      cases hrest : parseLines rest with
      | none =>
        rw [hpl, hrest] at h
        cases h
      | some rs2 =>
        rcases List.mem_cons.mp hl with rfl | hl2
        · exact ⟨r, hpl⟩
        · exact ih rs2 hrest l hl2

theorem astypeInt_intv (v w : ColVal) (h : astypeInt v = some w) :
    ∃ n, w = ColVal.intv n := by
  cases v with
  | raw s =>
    simp only [astypeInt] at h
    cases hp : parseIntChars s with
    | none =>
      rw [hp] at h
      cases h
    | some n =>
      rw [hp] at h
      cases h
      exact ⟨n, rfl⟩
  | intv n =>
    simp only [astypeInt] at h
    cases h
    exact ⟨n, rfl⟩

theorem coerceInts_mem (rs rs2 : List Row) (h : coerceInts rs = some rs2) :
    ∀ r2 ∈ rs2, ∃ r ∈ rs, ∃ gp tr, astypeInt r.genderPos = some gp ∧
      astypeInt r.totalRuns = some tr ∧
      r2 = { r with genderPos := gp, totalRuns := tr } := by
  induction rs generalizing rs2 with
  | nil =>
    unfold coerceInts at h
    cases h
    intro r2 hr2
    cases hr2
  | cons a rest ih =>
    intro r2 hr2
    unfold coerceInts at h
    cases hgp : astypeInt a.genderPos with
    | none =>
      rw [hgp] at h
      cases h
    | some gp =>
      cases htr : astypeInt a.totalRuns with
      | none =>
        rw [hgp, htr] at h
        cases h
      | some tr =>
        cases hrest : coerceInts rest with
        | none =>
          rw [hgp, htr, hrest] at h
          cases h
        | some rs3 =>
          rw [hgp, htr, hrest] at h
          cases h
          rcases List.mem_cons.mp hr2 with rfl | hr3
          · exact ⟨a, List.mem_cons_self a rest, gp, tr, hgp, htr, rfl⟩
          · obtain ⟨r, hrmem, gp2, tr2, h1, h2, h3⟩ := ih rs3 hrest r2 hr3
            exact ⟨r, List.mem_cons_of_mem a hrmem, gp2, tr2, h1, h2, h3⟩

theorem parseLine_converters (l : Str) (r : Row) (h : parseLine l = some r) :
    (timeString_to_minutes ((splitOnChar '\t' l).getD 2 [])).isSome = true ∧
    (convertPercent ((splitOnChar '\t' l).getD 4 [])).isSome = true := by
  simp only [parseLine] at h
  split at h
  · split at h
    next p t ag hp ht hag =>
      rw [ht, hag]
      exact ⟨rfl, rfl⟩
    next =>
      cases h
  · cases h

/-- Claim C5: whenever `importResults` succeeds with unknown-filtering
enabled, no returned row has runner Unknown, the Gender Pos and Total
Runs fields of every returned row are integers, the `totalUnknowns`
and `totalRunners` counts are computed on the parsed rows before the
filter, and every line of the data region had its Time and Age Grade
fields successfully converted to numbers. -/
theorem importResults_invariants (lines : List Str) (h f : ℕ) (res : ImportResult)
    (hrun : importResults lines h f true = some res) :
    (∀ r ∈ res.rows, ¬ (r.runner = unknownStr)) ∧
    (∀ r ∈ res.rows, (∃ n, r.genderPos = ColVal.intv n) ∧ (∃ n, r.totalRuns = ColVal.intv n)) ∧
    (∃ rows0, parseLines (dataRegion lines) = some rows0 ∧
      res.totalRunners = rows0.length ∧ res.totalUnknowns = rows0.countP isUnknown) ∧
    (∀ l ∈ dataRegion lines,
      (timeString_to_minutes ((splitOnChar '\t' l).getD 2 [])).isSome = true ∧
      (convertPercent ((splitOnChar '\t' l).getD 4 [])).isSome = true) := by
  unfold importResults at hrun
  split at hrun
  next hpl =>
    cases hrun
  next rows0 hpl =>
    rw [if_pos rfl] at hrun
    split at hrun
    next hci =>
      cases hrun
    next rows2 hci =>
      cases hrun
      refine ⟨?_, ?_, ⟨rows0, hpl, rfl, rfl⟩, ?_⟩
      · intro r hr
        obtain ⟨r0, hr0mem, gp, tr, hgp, htr, heq⟩ := coerceInts_mem _ _ hci r hr
        have hfil := List.mem_filter.mp hr0mem
        have hunk : isUnknown r0 = false := by
          have h2 := hfil.2
          simpa using h2
        subst heq
        intro hcon
        have hcon2 : r0.runner = unknownStr := hcon
        rw [isUnknown, hcon2] at hunk
        simp at hunk
      · intro r hr
        obtain ⟨r0, hr0mem, gp, tr, hgp, htr, heq⟩ := coerceInts_mem _ _ hci r hr
        subst heq
        obtain ⟨n1, rfl⟩ := astypeInt_intv _ _ hgp
        obtain ⟨n2, rfl⟩ := astypeInt_intv _ _ htr
        exact ⟨⟨n1, rfl⟩, ⟨n2, rfl⟩⟩
      · intro l hl
        obtain ⟨r, hr⟩ := parseLines_mem _ _ hpl l hl
        exact parseLine_converters l r hr

theorem importResults_invariants_witness :
    importResults testLines 0 0 true = some testRes ∧
    ((∀ r ∈ testRes.rows, ¬ (r.runner = unknownStr)) ∧
     (∀ r ∈ testRes.rows,
       (∃ n, r.genderPos = ColVal.intv n) ∧ (∃ n, r.totalRuns = ColVal.intv n)) ∧
     (∃ rows0, parseLines (dataRegion testLines) = some rows0 ∧
       testRes.totalRunners = rows0.length ∧ testRes.totalUnknowns = rows0.countP isUnknown) ∧
     (∀ l ∈ dataRegion testLines,
       (timeString_to_minutes ((splitOnChar '\t' l).getD 2 [])).isSome = true ∧
       (convertPercent ((splitOnChar '\t' l).getD 4 [])).isSome = true)) :=
  ⟨importResults_test, importResults_invariants testLines 0 0 testRes importResults_test⟩

theorem getD_map_blocks (f : Str → List Row) (l : List Str) (i : ℕ) (hi : i < l.length) :
    (l.map f).getD i [] = f (l.getD i []) := by
  induction l generalizing i with
  | nil => cases hi
  | cons a rest ih =>
    cases i with
    | zero => rfl
    | succ j => exact ih j (by simpa using hi)

theorem sum_lengths_le (l : List (List Row)) (n : ℕ) (h : ∀ b ∈ l, b.length ≤ n) :
    (l.map List.length).sum ≤ l.length * n := by
  induction l with
  | nil => simp
  | cons b rest ih =>
    simp only [List.map_cons, List.sum_cons, List.length_cons]
    have h1 := h b (by simp)
    have h2 := ih (fun b2 hb2 => h b2 (by simp [hb2]))
    calc b.length + (rest.map List.length).sum ≤ n + rest.length * n := by omega
    _ = (rest.length + 1) * n := by ring

theorem contrib_block_mem (pick : List Row → List Row) (results : List Row) (n : ℕ)
    (cat : Str) (hpick : ∀ xs, (pick xs).Perm xs) (r : Row)
    (hr : r ∈ (sampleRows pick (results.filter (fun r2 => r2.ageCat == cat)) n).getD []) :
    r.ageCat = cat := by
  rw [sampleRows] at hr
  split at hr
  · have h1 : r ∈ pick (results.filter (fun r2 => r2.ageCat == cat)) :=
      List.take_subset _ _ hr
    have h2 : r ∈ results.filter (fun r2 => r2.ageCat == cat) :=
      ((hpick _).mem_iff).mp h1
    have h3 := (List.mem_filter.mp h2).2
    simpa using h3
  · cases hr

/-- Claim C6: `resample_AgeCat` returns at most `n * 14` rows, every
returned row's age category is one of the 14 select categories, the
result is the concatenation of one block per select category in the
fixed order, each block has exactly `n` rows or is empty, and a
category with fewer than `n` members contributes an empty block. -/
theorem resample_AgeCat_spec (pick : List Row → List Row) (results : List Row) (n : ℕ)
    (hpick : ∀ xs, (pick xs).Perm xs) :
    (resample_AgeCat pick results n).length ≤ n * 14 ∧
    (∀ r ∈ resample_AgeCat pick results n, r.ageCat ∈ selectCats) ∧
    (∃ blocks : List (List Row),
      resample_AgeCat pick results n = blocks.flatten ∧
      blocks.length = 14 ∧ selectCats.length = 14 ∧
      ∀ i, i < 14 →
        (∀ r ∈ blocks.getD i [], r.ageCat = selectCats.getD i []) ∧
        ((blocks.getD i []).length = n ∨ blocks.getD i [] = []) ∧
        ((results.filter (fun r => r.ageCat == selectCats.getD i [])).length < n →
          blocks.getD i [] = [])) := by
  have hsel14 : selectCats.length = 14 := rfl
  have hblocklen : ∀ cat : Str,
      ((sampleRows pick (results.filter (fun r2 => r2.ageCat == cat)) n).getD []).length ≤ n := by
    intro cat
    rw [sampleRows]
    split
    · rw [Option.getD_some, List.length_take]
      exact min_le_left n _
    · simp
  refine ⟨?_, ?_, ?_⟩
  · rw [resample_AgeCat, List.length_flatten, List.map_map]
    have := sum_lengths_le (selectCats.map
      (fun cat => (sampleRows pick (results.filter (fun r2 => r2.ageCat == cat)) n).getD []))
      n (by
        intro b hb
        obtain ⟨cat, hcat, rfl⟩ := List.mem_map.mp hb
        exact hblocklen cat)
    rw [List.map_map] at this
    calc _ ≤ (selectCats.map
        (fun cat => (sampleRows pick (results.filter (fun r2 => r2.ageCat == cat)) n).getD [])).length * n := this
    _ = 14 * n := by rw [List.length_map, hsel14]
    _ = n * 14 := by ring
  · intro r hr
    rw [resample_AgeCat, List.mem_flatten] at hr
    obtain ⟨b, hb, hrb⟩ := hr
    obtain ⟨cat, hcat, rfl⟩ := List.mem_map.mp hb
    rw [contrib_block_mem pick results n cat hpick r hrb]
    exact hcat
  · refine ⟨selectCats.map
      (fun cat => (sampleRows pick (results.filter (fun r2 => r2.ageCat == cat)) n).getD []),
      rfl, by rw [List.length_map, hsel14], hsel14, ?_⟩
    intro i hi
    have hi2 : i < selectCats.length := by rw [hsel14]; exact hi
    rw [getD_map_blocks _ _ _ hi2]
    refine ⟨?_, ?_, ?_⟩
    · intro r hr
      exact contrib_block_mem pick results n _ hpick r hr
    · rw [sampleRows]
      split
      next hle =>
        left
        rw [Option.getD_some, List.length_take]
        have hlen : n ≤ (pick (results.filter
            (fun r2 => r2.ageCat == selectCats.getD i []))).length := by
          rw [(hpick _).length_eq]
          exact hle
        exact min_eq_left hlen
      next => right; rfl
    · intro hlt
      rw [sampleRows]
      split
      next hle => exact absurd hle (by omega)
      next => rfl

/-! Facts about the weighted-sampling machinery. -/

theorem cumSums_nonneg (ws : List ℚ) (h : ∀ w ∈ ws, 0 ≤ w) :
    ∀ p ∈ cumSums ws, 0 ≤ p := by
  induction ws with
  | nil =>
    intro p hp
    cases hp
  | cons w rest ih =>
    intro p hp
    rw [cumSums] at hp
    rcases List.mem_cons.mp hp with rfl | hp2
    · exact h p (by simp)
    · obtain ⟨q, hq, rfl⟩ := List.mem_map.mp hp2
      have h1 : 0 ≤ w := h w (by simp)
      have h2 : 0 ≤ q := ih (fun v hv => h v (by simp [hv])) q hq
      linarith

theorem countP_cumSums (t : ℚ) (ws : List ℚ) (h : ∀ w ∈ ws, 0 ≤ w) :
    (cumSums ws).countP (fun p => decide (p ≤ t)) = searchIdx t ws := by
  induction ws generalizing t with
  | nil => rfl
  | cons w rest ih =>
    have hrest : ∀ v ∈ rest, 0 ≤ v := fun v hv => h v (by simp [hv])
    rw [cumSums, searchIdx, List.countP_cons, List.countP_map]
    by_cases hwt : w ≤ t
    · rw [if_pos hwt]
      have hcomp : ((fun p => decide (p ≤ t)) ∘ (fun p => w + p))
          = (fun p => decide (p ≤ t - w)) := by
        funext p
        simp only [Function.comp]
        rw [decide_eq_decide]
        constructor <;> intro <;> linarith
      rw [hcomp, ih (t - w) hrest]
      simp [hwt]
    · rw [if_neg hwt]
      have hz : List.countP ((fun p => decide (p ≤ t)) ∘ (fun p => w + p)) (cumSums rest)
          = 0 := by
        rw [List.countP_eq_zero]
        intro p hp
        have h2 : 0 ≤ p := cumSums_nonneg rest hrest p hp
        simp only [Function.comp, decide_eq_true_eq]
        push_neg at hwt
        intro hcon
        linarith
      rw [hz]
      simp [hwt]

theorem searchIdx_spec (ws : List ℚ) (t : ℚ) (hnn : ∀ w ∈ ws, 0 ≤ w)
    (h0 : 0 ≤ t) (hlt : t < ws.sum) :
    searchIdx t ws < ws.length ∧ 0 < ws.getD (searchIdx t ws) 0 := by
  induction ws generalizing t with
  | nil =>
    simp only [List.sum_nil] at hlt
    linarith
  | cons w rest ih =>
    rw [searchIdx]
    by_cases hwt : w ≤ t
    · rw [if_pos hwt]
      have hnn2 : ∀ v ∈ rest, 0 ≤ v := fun v hv => hnn v (by simp [hv])
      have h02 : 0 ≤ t - w := by linarith
      have hlt2 : t - w < rest.sum := by
        rw [List.sum_cons] at hlt
        linarith
      obtain ⟨ha, hb⟩ := ih (t - w) hnn2 h02 hlt2
      constructor
      · simpa using Nat.succ_lt_succ ha
      · simpa using hb
    · rw [if_neg hwt]
      push_neg at hwt
      constructor
      · simp
      · simpa using lt_of_le_of_lt h0 hwt

theorem drawOne_spec (ws : List ℚ) (u : ℚ) (hnn : ∀ w ∈ ws, 0 ≤ w)
    (hsum : 0 < ws.sum) (hu0 : 0 ≤ u) (hu1 : u < 1) :
    drawOne ws u < ws.length ∧ 0 < ws.getD (drawOne ws u) 0 := by
  rw [drawOne, countP_cumSums _ _ hnn]
  refine searchIdx_spec ws (u * ws.sum) hnn (by positivity) ?_
  nlinarith

theorem sum_pos_of_countP_pos (ws : List ℚ) (hnn : ∀ w ∈ ws, 0 ≤ w)
    (h : 0 < ws.countP (fun w => decide (0 < w))) : 0 < ws.sum := by
  induction ws with
  | nil => simp at h
  | cons w rest ih =>
    rw [List.sum_cons]
    rw [List.countP_cons] at h
    have hrestnn : ∀ v ∈ rest, 0 ≤ v := fun v hv => hnn v (by simp [hv])
    have hrestsum : 0 ≤ rest.sum := List.sum_nonneg hrestnn
    by_cases hwp : 0 < w
    · linarith
    · have hd : decide (0 < w) = false := by simp [hwp]
      rw [hd] at h
      simp at h
      obtain ⟨a, ha, hap⟩ := h
      have := List.single_le_sum hrestnn a ha
      have hw0 : 0 ≤ w := hnn w (by simp)
      linarith

theorem getD_set_self (ws : List ℚ) (j : ℕ) (hj : j < ws.length) :
    (ws.set j 0).getD j 0 = 0 := by
  induction ws generalizing j with
  | nil => cases hj
  | cons w rest ih =>
    cases j with
    | zero => rfl
    | succ i => exact ih i (by simpa using hj)

theorem getD_set_other (ws : List ℚ) (j i : ℕ) (hij : i ≠ j) :
    (ws.set j 0).getD i 0 = ws.getD i 0 := by
  induction ws generalizing i j with
  | nil => rfl
  | cons w rest ih =>
    cases j with
    | zero =>
      cases i with
      | zero => exact absurd rfl hij
      | succ i2 => rfl
    | succ j2 =>
      cases i with
      | zero => rfl
      | succ i2 => exact ih j2 i2 (fun e => hij (by rw [e]))

theorem countP_set_zero (ws : List ℚ) (j : ℕ) (hj : j < ws.length)
    (hpos : 0 < ws.getD j 0) :
    (ws.set j 0).countP (fun w => decide (0 < w)) + 1
      = ws.countP (fun w => decide (0 < w)) := by
  induction ws generalizing j with
  | nil => cases hj
  | cons w rest ih =>
    cases j with
    | zero =>
      show (((0 : ℚ) :: rest).countP (fun w => decide (0 < w))) + 1 = _
      rw [List.countP_cons, List.countP_cons]
      have h1 : decide ((0 : ℚ) < 0) = false := by simp
      have h2 : decide (0 < w) = true := by
        have : (0 : ℚ) < w := hpos
        simpa using this
      rw [h1, h2]
      simp
    | succ j2 =>
      show ((w :: rest.set j2 0).countP (fun w => decide (0 < w))) + 1 = _
      rw [List.countP_cons, List.countP_cons]
      have := ih j2 (by simpa using hj) (by simpa using hpos)
      omega

theorem sampleWR_spec (us : List ℚ) : ∀ (ws : List ℚ),
    (∀ w ∈ ws, 0 ≤ w) →
    us.length ≤ ws.countP (fun w => decide (0 < w)) →
    (∀ u ∈ us, 0 ≤ u ∧ u < 1) →
    (sampleWR ws us).Nodup ∧
    ∀ j ∈ sampleWR ws us, j < ws.length ∧ 0 < ws.getD j 0 := by
  induction us with
  | nil =>
    intro ws _ _ _
    constructor
    · simp [sampleWR]
    · intro j hj
      rw [sampleWR] at hj
      cases hj
  | cons u us2 ih =>
    intro ws hnn hcnt hus
    have hcpos : 0 < ws.countP (fun w => decide (0 < w)) := by
      rw [List.length_cons] at hcnt
      omega
    have hsum : 0 < ws.sum := sum_pos_of_countP_pos ws hnn hcpos
    obtain ⟨hu0, hu1⟩ := hus u (by simp)
    obtain ⟨hjlt, hjpos⟩ := drawOne_spec ws u hnn hsum hu0 hu1
    have hnn2 : ∀ w ∈ ws.set (drawOne ws u) 0, 0 ≤ w := by
      intro w hw
      rcases List.mem_or_eq_of_mem_set hw with h1 | rfl
      · exact hnn w h1
      · exact le_refl 0
    have hcnt2 : us2.length ≤ (ws.set (drawOne ws u) 0).countP (fun w => decide (0 < w)) := by
      have hset := countP_set_zero ws (drawOne ws u) hjlt hjpos
      rw [List.length_cons] at hcnt
      omega
    have hus2 : ∀ v ∈ us2, 0 ≤ v ∧ v < 1 := fun v hv => hus v (by simp [hv])
    obtain ⟨hnd, hmem⟩ := ih (ws.set (drawOne ws u) 0) hnn2 hcnt2 hus2
    simp only [sampleWR]
    constructor
    · rw [List.nodup_cons]
      refine ⟨?_, hnd⟩
      intro hjin
      have hcon := (hmem _ hjin).2
      rw [getD_set_self ws _ hjlt] at hcon
      exact lt_irrefl 0 hcon
    · intro i hi
      rcases List.mem_cons.mp hi with rfl | hi2
      · exact ⟨hjlt, hjpos⟩
      · obtain ⟨h1, h2⟩ := hmem i hi2
        have hij : i ≠ drawOne ws u := by
          intro e
          rw [e, getD_set_self ws _ hjlt] at h2
          exact lt_irrefl 0 h2
        rw [List.length_set] at h1
        rw [getD_set_other ws _ i hij] at h2
        exact ⟨h1, h2⟩

theorem assignBW_mem (nCats : ℕ) (counts : ℤ → ℕ) (rs rs2 : List Row)
    (h : assignBW nCats counts rs = some rs2) :
    ∀ r2 ∈ rs2, ∃ r ∈ rs, ∃ b, cut nCats r.ageGrade = some b ∧
      r2 = { r with agCat := some b, weights := some ((counts b : ℕ) : ℚ) } := by
  induction rs generalizing rs2 with
  | nil =>
    unfold assignBW at h
    cases h
    intro r2 hr2
    cases hr2
  | cons a rest ih =>
    intro r2 hr2
    unfold assignBW at h
    cases hc : cut nCats a.ageGrade with
    | none =>
      rw [hc] at h
      cases h
    | some b =>
      cases hrest : assignBW nCats counts rest with
      | none =>
        rw [hc, hrest] at h
        cases h
      | some rs3 =>
        rw [hc, hrest] at h
        cases h
        rcases List.mem_cons.mp hr2 with rfl | hr3
        · exact ⟨a, List.mem_cons_self a rest, b, hc, rfl⟩
        · obtain ⟨r, hrmem, b2, hb2, heq⟩ := ih rs3 hrest r2 hr3
          exact ⟨r, List.mem_cons_of_mem a hrmem, b2, hb2, heq⟩

theorem assignBW_strip (nCats : ℕ) (counts : ℤ → ℕ) (rs rs2 : List Row)
    (h : assignBW nCats counts rs = some rs2) :
    rs2.map stripTransient = rs.map stripTransient := by
  induction rs generalizing rs2 with
  | nil =>
    unfold assignBW at h
    cases h
    rfl
  | cons a rest ih =>
    unfold assignBW at h
    cases hc : cut nCats a.ageGrade with
    | none =>
      rw [hc] at h
      cases h
    | some b =>
      cases hrest : assignBW nCats counts rest with
      | none =>
        rw [hc, hrest] at h
        cases h
      | some rs3 =>
        rw [hc, hrest] at h
        cases h
        simp only [List.map_cons, ih rs3 hrest]
        rfl

theorem resample_eq (r1 r2 : List Row) (n nCats : ℕ) (us : List ℚ)
    (r1s r2s out : List Row)
    (h : resample r1 r2 n nCats us = some (r1s, r2s, out)) :
    binsOk nCats = true ∧
    assignBW nCats (bucketCount nCats r1) r1 = some r1s ∧
    assignBW nCats (bucketCount nCats r1) r2 = some r2s ∧
    n ≤ (r2s.map (fun r => r.weights.getD 0)).countP (fun w => decide (0 < w)) ∧
    out = (sampleWR (r2s.map (fun r => r.weights.getD 0)) us).filterMap
      (fun j => r2s.get? j) := by
  unfold resample at h
  split at h
  next hbins =>
    split at h
    next ha1 => cases h
    next r1x ha1 =>
      split at h
      next ha2 => cases h
      next r2x ha2 =>
        split at h
        next hcnt =>
          simp only [Option.some.injEq, Prod.mk.injEq] at h
          obtain ⟨e1, e2, e3⟩ := h
          subst e1
          subst e2
          subst e3
          exact ⟨hbins, ha1, ha2, hcnt, rfl⟩
        next => cases h
  next => cases h

theorem getD_map_weights (l : List Row) (f : Row → ℚ) (j : ℕ) (hj : j < l.length) :
    (l.map f).getD j 0 = f (l.get ⟨j, hj⟩) := by
  induction l generalizing j with
  | nil => cases hj
  | cons a rest ih =>
    cases j with
    | zero => rfl
    | succ i => exact ih i (by simpa using hj)

theorem get?_eq_some_getD (l : List Row) (j : ℕ) (hj : j < l.length) :
    l.get? j = some (l.getD j default) := by
  induction l generalizing j with
  | nil => cases hj
  | cons a rest ih =>
    cases j with
    | zero => rfl
    | succ i => exact ih i (by simpa using hj)

theorem getD_eq_get (l : List Row) (j : ℕ) (hj : j < l.length) :
    l.getD j default = l.get ⟨j, hj⟩ := by
  induction l generalizing j with
  | nil => cases hj
  | cons a rest ih =>
    cases j with
    | zero => rfl
    | succ i => exact ih i (by simpa using hj)

theorem filterMap_get_eq_map (l : List Row) (idxs : List ℕ)
    (h : ∀ j ∈ idxs, j < l.length) :
    idxs.filterMap (fun j => l.get? j) = idxs.map (fun j => l.getD j default) := by
  induction idxs with
  | nil => rfl
  | cons j rest ih =>
    simp only [List.filterMap_cons, List.map_cons, get?_eq_some_getD l j (h j (by simp)),
      ih (fun i hi => h i (by simp [hi]))]

/-- Claim C2: on a successful run of the weighted resampler, every
target row's weight equals the reference count of the bucket its own
age grade falls into; the sample consists of distinct indices into the
target, each carrying a strictly positive weight; a row whose bucket
has zero reference count is never in the sample; and when the target's
positions are distinct the sampled rows' positions are distinct. -/
theorem resample_weighted_spec (r1 r2 : List Row) (n nCats : ℕ) (us : List ℚ)
    (r1s r2s out : List Row)
    (hrun : resample r1 r2 n nCats us = some (r1s, r2s, out))
    (hus : ∀ u ∈ us, 0 ≤ u ∧ u < 1) (hlen : us.length = n) :
    (∀ r ∈ r2s, ∃ b, cut nCats r.ageGrade = some b ∧
      r.weights = some ((bucketCount nCats r1 b : ℕ) : ℚ)) ∧
    (∃ idxs : List ℕ, out = idxs.filterMap (fun j => r2s.get? j) ∧ idxs.Nodup ∧
      ∀ j ∈ idxs, j < r2s.length ∧
        ∃ r, r2s.get? j = some r ∧ ∃ w, r.weights = some w ∧ 0 < w) ∧
    (∀ r ∈ out, ∃ b, cut nCats r.ageGrade = some b ∧ 0 < bucketCount nCats r1 b) ∧
    ((r2.map Row.position).Nodup → (out.map Row.position).Nodup) := by
  obtain ⟨hbins, ha1, ha2, hcnt, hout⟩ := resample_eq r1 r2 n nCats us r1s r2s out hrun
  have hweights : ∀ r ∈ r2s, ∃ b, cut nCats r.ageGrade = some b ∧
      r.weights = some ((bucketCount nCats r1 b : ℕ) : ℚ) := by
    intro r hr
    obtain ⟨r0, _, b, hb, rfl⟩ := assignBW_mem _ _ _ _ ha2 r hr
    exact ⟨b, hb, rfl⟩
  have hnn : ∀ w ∈ r2s.map (fun r => r.weights.getD 0), 0 ≤ w := by
    intro w hw
    obtain ⟨r, hrmem, rfl⟩ := List.mem_map.mp hw
    obtain ⟨b, hb, hwr⟩ := hweights r hrmem
    rw [hwr, Option.getD_some]
    positivity
  have hcnt2 : us.length ≤ (r2s.map (fun r => r.weights.getD 0)).countP
      (fun w => decide (0 < w)) := by
    rw [hlen]
    exact hcnt
  obtain ⟨hnd, hmem⟩ :=
    sampleWR_spec us (r2s.map fun r => r.weights.getD 0) hnn hcnt2 hus
  have hjfacts : ∀ j ∈ sampleWR (r2s.map fun r => r.weights.getD 0) us,
      j < r2s.length ∧ ∃ r, r2s.get? j = some r ∧ ∃ w, r.weights = some w ∧ 0 < w := by
    intro j hj
    obtain ⟨hjl, hjp⟩ := hmem j hj
    rw [List.length_map] at hjl
    refine ⟨hjl, r2s.get ⟨j, hjl⟩, List.get?_eq_get hjl, ?_⟩
    obtain ⟨b, hb, hw⟩ := hweights (r2s.get ⟨j, hjl⟩) (r2s.get_mem _ _)
    refine ⟨_, hw, ?_⟩
    rw [getD_map_weights r2s _ j hjl, hw, Option.getD_some] at hjp
    exact hjp
  refine ⟨hweights, ⟨sampleWR _ us, hout, hnd, hjfacts⟩, ?_, ?_⟩
  · intro r hr
    rw [hout] at hr
    obtain ⟨j, hjmem, hjget⟩ := List.mem_filterMap.mp hr
    obtain ⟨hjl, r3, hget3, w, hw, hwp⟩ := hjfacts j hjmem
    rw [hget3] at hjget
    cases hjget
    obtain ⟨b, hb, hww⟩ := hweights r (List.get?_mem hget3)
    refine ⟨b, hb, ?_⟩
    rw [hww] at hw
    cases hw
    exact_mod_cast hwp
  · intro hposNodup
    have hstrip := assignBW_strip _ _ _ _ ha2
    have hpos2 : r2s.map Row.position = r2.map Row.position := by
      have hmaps := congrArg (List.map Row.position) hstrip
      rw [List.map_map, List.map_map] at hmaps
      exact hmaps
    have hlens : ∀ j ∈ sampleWR (r2s.map fun r => r.weights.getD 0) us,
        j < r2s.length := fun j hj => (hjfacts j hj).1
    rw [hout, filterMap_get_eq_map r2s _ hlens, List.map_map]
    refine List.Nodup.map_on ?_ hnd
    intro i hi j hj heq
    have hil := (hjfacts i hi).1
    have hjl := (hjfacts j hj).1
    have hnds : (r2s.map Row.position).Nodup := by
      rw [hpos2]
      exact hposNodup
    simp only [Function.comp] at heq
    rw [getD_eq_get r2s i hil, getD_eq_get r2s j hjl] at heq
    have hi2 : i < (r2s.map Row.position).length := by
      rw [List.length_map]
      exact hil
    have hj2 : j < (r2s.map Row.position).length := by
      rw [List.length_map]
      exact hjl
    have heq2 : (r2s.map Row.position).get ⟨i, hi2⟩ = (r2s.map Row.position).get ⟨j, hj2⟩ := by
      rw [List.get_map, List.get_map]
      exact heq
    have hfin := (List.Nodup.get_inj_iff hnds).mp heq2
    simpa using congrArg Fin.val hfin

/-- Claim C7 counterexample: `resample_AgeCat` does not mutate its
input table.  After the call the input still carries no bucket column
and no weight column, refuting the claim that both resampling routines
add them to their inputs. -/
theorem resample_AgeCat_no_mutation :
    (resample_AgeCat_state id oneCatTable 1).1 = oneCatTable ∧
    ∀ r ∈ (resample_AgeCat_state id oneCatTable 1).1,
      r.agCat = none ∧ r.weights = none := by
  refine ⟨rfl, ?_⟩
  intro r hr
  have hr2 : r ∈ oneCatTable := hr
  simp only [oneCatTable, mkRow, List.mem_singleton] at hr2
  subst hr2
  exact ⟨rfl, rfl⟩

/-- Claim C7 (amended): the weighted resampler mutates both of its
input tables in place, setting the transient AG_Cat and weights columns
on every row while leaving every other column and every row unchanged;
the category resampler does not modify its input at all. -/
theorem resample_mutation (r1 r2 : List Row) (n nCats : ℕ) (us : List ℚ)
    (r1s r2s out : List Row)
    (hrun : resample r1 r2 n nCats us = some (r1s, r2s, out))
    (pick : List Row → List Row) (t : List Row) (m : ℕ) :
    r1s.map stripTransient = r1.map stripTransient ∧
    r2s.map stripTransient = r2.map stripTransient ∧
    (∀ r ∈ r1s, r.agCat.isSome = true ∧ r.weights.isSome = true) ∧
    (∀ r ∈ r2s, r.agCat.isSome = true ∧ r.weights.isSome = true) ∧
    (resample_AgeCat_state pick t m).1 = t := by
  obtain ⟨hbins, ha1, ha2, hcnt, hout⟩ := resample_eq r1 r2 n nCats us r1s r2s out hrun
  refine ⟨assignBW_strip _ _ _ _ ha1, assignBW_strip _ _ _ _ ha2, ?_, ?_, rfl⟩
  · intro r hr
    obtain ⟨r0, _, b, _, rfl⟩ := assignBW_mem _ _ _ _ ha1 r hr
    exact ⟨rfl, rfl⟩
  · intro r hr
    obtain ⟨r0, _, b, _, rfl⟩ := assignBW_mem _ _ _ _ ha2 r hr
    exact ⟨rfl, rfl⟩

/-! Concrete run of the weighted resampler. -/

theorem cut_55 : cut 10 (11 / 20) = some 5 := by
  rw [cut]
  rw [if_pos (by norm_num)]
  have hc : ⌈(11 / 20 : ℚ) * 100 / ((100 / 10 : ℕ) : ℚ)⌉ = 6 := by
    rw [show ((100 / 10 : ℕ) : ℚ) = 10 by norm_num]
    rw [Int.ceil_eq_iff]
    constructor <;> norm_num
  rw [hc]
  rfl

theorem cut_52 : cut 10 (13 / 25) = some 5 := by
  rw [cut]
  rw [if_pos (by norm_num)]
  have hc : ⌈(13 / 25 : ℚ) * 100 / ((100 / 10 : ℕ) : ℚ)⌉ = 6 := by
    rw [show ((100 / 10 : ℕ) : ℚ) = 10 by norm_num]
    rw [Int.ceil_eq_iff]
    constructor <;> norm_num
  rw [hc]
  rfl

theorem cut_58 : cut 10 (29 / 50) = some 5 := by
  rw [cut]
  rw [if_pos (by norm_num)]
  have hc : ⌈(29 / 50 : ℚ) * 100 / ((100 / 10 : ℕ) : ℚ)⌉ = 6 := by
    rw [show ((100 / 10 : ℕ) : ℚ) = 10 by norm_num]
    rw [Int.ceil_eq_iff]
    constructor <;> norm_num
  rw [hc]
  rfl

theorem bucketCount_refT : bucketCount 10 refT 5 = 2 := by
  rw [bucketCount, refT]
  rw [List.countP_cons, List.countP_cons, List.countP_nil]
  rw [show (mkRow 1 (11 / 20) (("SM30-34").toList)).ageGrade = 11 / 20 from rfl]
  rw [show (mkRow 2 (11 / 20) (("SM30-34").toList)).ageGrade = 11 / 20 from rfl]
  rw [cut_55]
  rfl

theorem assignBW_refT : assignBW 10 (bucketCount 10 refT) refT = some refTA := by
  show assignBW 10 (bucketCount 10 refT)
      [mkRow 1 (11 / 20) (("SM30-34").toList), mkRow 2 (11 / 20) (("SM30-34").toList)]
    = some refTA
  simp only [assignBW, mkRow, cut_55, bucketCount_refT]
  norm_num [refTA, mkRow]

theorem assignBW_tgtT : assignBW 10 (bucketCount 10 refT) tgtT = some tgtTA := by
  show assignBW 10 (bucketCount 10 refT)
      [mkRow 3 (13 / 25) (("SM30-34").toList), mkRow 4 (29 / 50) (("SM30-34").toList)]
    = some tgtTA
  simp only [assignBW, mkRow, cut_52, cut_58, bucketCount_refT]
  norm_num [tgtTA, mkRow]

theorem tgtTA_weights : tgtTA.map (fun r => r.weights.getD 0) = [2, 2] := by
  simp [tgtTA, mkRow]

theorem cumSums_22 : cumSums [(2 : ℚ), 2] = [2, 4] := by
  simp [cumSums]
  norm_num

theorem drawOne_22 : drawOne [(2 : ℚ), 2] 0 = 0 := by
  rw [drawOne, cumSums_22]
  simp only [show ([(2 : ℚ), 2]).sum = 4 by norm_num]
  norm_num [List.countP_cons, List.countP_nil]

theorem sampleWR_22 : sampleWR [(2 : ℚ), 2] [0] = [0] := by
  simp only [sampleWR, drawOne_22]

theorem resample_test : resample refT tgtT 1 10 [0] = some (refTA, tgtTA, outT) := by
  unfold resample
  rw [if_pos (by decide : binsOk 10 = true)]
  simp only [assignBW_refT, assignBW_tgtT, tgtTA_weights]
  have hcnt : (1 : ℕ) ≤ ([(2 : ℚ), 2]).countP (fun w => decide (0 < w)) := by
    norm_num [List.countP_cons, List.countP_nil]
  rw [if_pos hcnt, sampleWR_22]
  rfl

theorem resample_weighted_spec_witness :
    resample refT tgtT 1 10 [0] = some (refTA, tgtTA, outT) ∧
    (∀ u ∈ [(0 : ℚ)], 0 ≤ u ∧ u < 1) ∧ ([(0 : ℚ)].length = 1) ∧
    ((∀ r ∈ tgtTA, ∃ b, cut 10 r.ageGrade = some b ∧
       r.weights = some ((bucketCount 10 refT b : ℕ) : ℚ)) ∧
     (∃ idxs : List ℕ, outT = idxs.filterMap (fun j => tgtTA.get? j) ∧ idxs.Nodup ∧
       ∀ j ∈ idxs, j < tgtTA.length ∧
         ∃ r, tgtTA.get? j = some r ∧ ∃ w, r.weights = some w ∧ 0 < w) ∧
     (∀ r ∈ outT, ∃ b, cut 10 r.ageGrade = some b ∧ 0 < bucketCount 10 refT b) ∧
     ((tgtT.map Row.position).Nodup → (outT.map Row.position).Nodup)) := by
  have hus : ∀ u ∈ [(0 : ℚ)], 0 ≤ u ∧ u < 1 := by
    intro u hu
    simp only [List.mem_singleton] at hu
    subst hu
    norm_num
  exact ⟨resample_test, hus, rfl,
    resample_weighted_spec refT tgtT 1 10 [0] refTA tgtTA outT resample_test hus rfl⟩

theorem resample_mutation_witness :
    resample refT tgtT 1 10 [0] = some (refTA, tgtTA, outT) ∧
    (refTA.map stripTransient = refT.map stripTransient ∧
     tgtTA.map stripTransient = tgtT.map stripTransient ∧
     (∀ r ∈ refTA, r.agCat.isSome = true ∧ r.weights.isSome = true) ∧
     (∀ r ∈ tgtTA, r.agCat.isSome = true ∧ r.weights.isSome = true) ∧
     (resample_AgeCat_state id oneCatTable 1).1 = oneCatTable) :=
  ⟨resample_test,
   resample_mutation refT tgtT 1 10 [0] refTA tgtTA outT resample_test id oneCatTable 1⟩

theorem resample_AgeCat_spec_witness :
    (∀ xs : List Row, (id xs).Perm xs) ∧
    ((resample_AgeCat id oneCatTable 1).length ≤ 1 * 14 ∧
     (∀ r ∈ resample_AgeCat id oneCatTable 1, r.ageCat ∈ selectCats) ∧
     (∃ blocks : List (List Row),
       resample_AgeCat id oneCatTable 1 = blocks.flatten ∧
       blocks.length = 14 ∧ selectCats.length = 14 ∧
       ∀ i, i < 14 →
         (∀ r ∈ blocks.getD i [], r.ageCat = selectCats.getD i []) ∧
         ((blocks.getD i []).length = 1 ∨ blocks.getD i [] = []) ∧
         ((oneCatTable.filter (fun r => r.ageCat == selectCats.getD i [])).length < 1 →
           blocks.getD i [] = []))) :=
  ⟨fun xs => List.Perm.refl xs,
   resample_AgeCat_spec id oneCatTable 1 (fun xs => List.Perm.refl xs)⟩
